import Mathlib

/-!
Verification of the fleet-operations task runner (`tasks.py`) of the
doctor-cluster-config repository.

The Python source shells out to external tools; what is verified here is the
orchestration logic itself: the deploy retry loop, the parallel fan-out's
event ordering, the PCI-card documentation collector, the hostname
derivations, the IPMI power-measurement loop and its parsing, the LLDP host
selection, and the temporary-directory discipline of the key-staging tasks.

Strings are modelled with executable, kernel-reducible char-level helpers
that mirror the Python string methods used by the source
(`str.split(sep)`, `sep.join`, `str.strip`, `needle in hay`, `int(...)`),
so every concrete claim instance can be settled by `decide`.
-/

/-! ## Char-level string helpers mirroring the Python string methods -/

/-- `needle.isPrefixOf hay` on raw char lists: mirrors Python
`hay.startswith(needle)`. -/
def charsHasPre : List Char → List Char → Bool
  | [], _ => true
  | _ :: _, [] => false
  | c :: cs, d :: ds => c == d && charsHasPre cs ds

/-- `needle` occurs as a contiguous substring of `hay`: mirrors Python
`needle in hay`. -/
def charsHasSub (needle : List Char) : List Char → Bool
  | [] => needle.isEmpty
  | d :: ds => charsHasPre needle (d :: ds) || charsHasSub needle ds

/-- Python `needle in hay` on `String`. -/
def strHasSub (hay needle : String) : Bool :=
  charsHasSub needle.data hay.data

/-- Python `s.split(sep)` (single-char separator) on raw char lists:
always returns a nonempty list, `"".split(".") == [""]`. -/
def splitChars (sep : Char) : List Char → List (List Char)
  | [] => [[]]
  | c :: cs =>
    let r := splitChars sep cs
    if c == sep then [] :: r else (c :: r.headD []) :: r.tail

/-- Python `s.split(sep)` on `String` (single-char separator). -/
def pySplit (s : String) (sep : Char) : List String :=
  (splitChars sep s.data).map String.mk

/-- Python `sep.join(parts)` on raw char lists (single-char separator). -/
def joinChars (sep : Char) : List (List Char) → List Char
  | [] => []
  | [p] => p
  | p :: q :: ps => p ++ sep :: joinChars sep (q :: ps)

/-- Python `".".join(parts)` on `String`. -/
def pyJoinDot (parts : List String) : String :=
  String.mk (joinChars '.' (parts.map String.data))

/-- The whitespace characters stripped by Python `str.strip()`
(the ones that can occur in the tool output parsed by the source). -/
def pyWs (c : Char) : Bool :=
  c == ' ' || c == '\t' || c == '\n' || c == '\r'

/-- Python `s.strip()`. -/
def pyStrip (s : String) : String :=
  String.mk (((s.data.dropWhile pyWs).reverse.dropWhile pyWs).reverse)

/-- Python `s.splitlines()` for `\n`-separated output: splits on newlines and,
unlike `split`, drops a trailing empty piece. -/
def pySplitlines (s : String) : List String :=
  match s.data with
  | [] => []
  | cs =>
    match (splitChars '\n' cs).reverse with
    | [] :: rest => rest.reverse.map String.mk
    | rest => rest.reverse.map String.mk

/-- Python `int(s)` restricted to nonnegative decimal numerals (the only
shape fed to it by the power-reading parser); `none` models `ValueError`. -/
def pyInt (s : String) : Option Nat :=
  if s.data ≠ [] ∧ s.data.all (fun c => '0' ≤ c && c ≤ '9') then
    some (s.data.foldl (fun acc c => acc * 10 + (c.toNat - '0'.toNat)) 0)
  else none

/-! ## Host model and the deploy retry logic (`deploy_nixos`, tasks.py 26-76) -/

/-- Model of a `deploykit.DeployHost` as constructed by tasks.py: transport
address, optional login user, and the metadata keys read by `deploy_nixos`
(`flake_path`, `flake_attr`, `target_host`, `target_user`). -/
structure DeployHost where
  host : String
  user : Option String
  flake_path : Option String
  flake_attr : Option String
  target_host : Option String
  target_user : Option String
deriving DecidableEq

/-- The `nixos-rebuild switch` argument vector built by `deploy_nixos.deploy`
(tasks.py 43-69) from the host metadata. -/
def buildCmd (h : DeployHost) : List String :=
  let flake_path := h.flake_path.getD "/etc/nixos"
  let flake_path :=
    match h.flake_attr with
    | some a => flake_path ++ "#" ++ a
    | none => flake_path
  let cmd := ["nixos-rebuild", "switch", "--fast",
              "--option", "accept-flake-config", "true",
              "--flake", flake_path,
              "--option", "keep-going", "true"]
  match h.target_host with
  | none => cmd
  | some th =>
    match h.target_user with
    | some tu => cmd ++ ["--target-host", tu ++ "@" ++ th]
    | none => cmd ++ ["--target-host", th]

/-- The activation attempts performed by one host's `deploy` callback
(tasks.py 71-74): `ret = h.run(cmd, check=False)`; if the return code is
nonzero the identical `cmd` is run once more (this time with `check=True`,
so a second nonzero code raises and the host is reported failed).
`run n` is the return code the host produces for attempt number `n`.
Returns the list of `(command, return code)` attempts actually made and
whether the host's deploy ends in success. -/
def deployAttempts (h : DeployHost) (run : Nat → Nat) : List (List String × Nat) × Bool :=
  let cmd := buildCmd h
  let r1 := run 0
  if r1 ≠ 0 then
    let r2 := run 1
    ([(cmd, r1), (cmd, r2)], r2 == 0)
  else
    ([(cmd, r1)], true)

/-! ## Event-trace model of the parallel fan-out of `deploy_nixos`

`DeployGroup.run_function` runs one callback per host concurrently; the only
ordering guarantees are that steps inside one host's callback stay in their
program order. A run of `deploy_nixos` is therefore modelled as the single
`nix flake metadata` resolution event followed by an arbitrary interleaving
of the per-host event sequences. -/

/-- Events observable in a `deploy_nixos` run: the one `nix flake metadata`
resolution (tasks.py 32-39), a host's `rsync` artifact sync (tasks.py 44-46)
and a host's `nixos-rebuild switch` attempt (tasks.py 71-74), numbered 1 or 2
and carrying whether the attempt exited zero. -/
inductive Ev where
  | flakeMeta
  | rsync (host : String)
  | runCmd (host : String) (attempt : Nat) (ok : Bool)
deriving DecidableEq

/-- The host a deploy event belongs to (`none` for the shared flake
resolution). -/
def evHost : Ev → Option String
  | .flakeMeta => none
  | .rsync h => some h
  | .runCmd h _ _ => some h

/-- One host's outcome scenario in a deploy: its name, whether its first
`nixos-rebuild switch` exits zero, and (when the first fails) whether the
retry exits zero. -/
structure HostRun where
  name : String
  firstOk : Bool
  secondOk : Bool
deriving DecidableEq

/-- The event sequence of one host's `deploy` callback (tasks.py 41-74):
rsync, then the first activation attempt, then - exactly when the first
attempt failed - the retry. -/
def hostTrace (hr : HostRun) : List Ev :=
  [Ev.rsync hr.name, Ev.runCmd hr.name 1 hr.firstOk] ++
    (if hr.firstOk then [] else [Ev.runCmd hr.name 2 hr.secondOk])

/-- `Interleave xs ys t`: `t` is an order-preserving interleaving of `xs`
and `ys` (two concurrent event streams merged in some scheduling order). -/
inductive Interleave : List Ev → List Ev → List Ev → Prop
  | nil : Interleave [] [] []
  | left {x xs ys t} : Interleave xs ys t → Interleave (x :: xs) ys (x :: t)
  | right {y xs ys t} : Interleave xs ys t → Interleave xs (y :: ys) (y :: t)

/-- `Sched ls t`: `t` is an order-preserving interleaving of all the streams
in `ls` (the scheduling freedom of the concurrent fan-out). -/
inductive Sched : List (List Ev) → List Ev → Prop
  | nil : Sched [] []
  | cons {l ls t2 t} : Interleave l t2 t → Sched ls t2 → Sched (l :: ls) t

/-- The observable traces of `deploy_nixos hosts`: the flake metadata is
resolved first, once, then the per-host callbacks run concurrently. -/
def DeployTrace (hosts : List HostRun) (t : List Ev) : Prop :=
  ∃ body, Sched (hosts.map hostTrace) body ∧ t = Ev.flakeMeta :: body

/-! ## `document_cards.doc_cards` (tasks.py 151-175) -/

/-- The per-line marking of `doc_cards` (tasks.py 160-167): a line containing
`"status: Available"` is prefixed with `"- ✅"`, then a line containing
`"status: In Use"` (checked on the possibly already prefixed line, as in the
source) is prefixed with `"- ❌"`; either match flags the line as a device
line. Returns the rewritten line and the `is_device_line` flag. -/
def markLine (line : String) : String × Bool :=
  let st1 := if strHasSub line "status: Available" then ("- ✅" ++ line, true)
             else (line, false)
  if strHasSub st1.1 "status: In Use" then ("- ❌" ++ st1.1, true)
  else st1

/-- The number of device-status lines (`status: Available` / `status: In Use`)
in the inxi slot output - the `K` of the pairing claim. -/
def devCount : List String → Nat
  | [] => 0
  | l :: ls => (if (markLine l).2 then 1 else 0) + devCount ls

/-- The line loop of `doc_cards` (tasks.py 159-174) over the already reversed
description list: each line is emitted with a trailing `"   \n"`; after a
device line the loop appends either `"Error\n"` (descriptions exhausted) or
`descriptions.pop()` - the last element of the reversed stack - followed by
`"  \n"`. -/
def docCardsGo : List String → List String → String
  | [], _ => ""
  | line :: rest, stack =>
    let m := markLine line
    let piece := m.1 ++ "   \n"
    if m.2 then
      match stack.getLast? with
      | none => piece ++ "Error\n" ++ docCardsGo rest stack
      | some d => piece ++ d ++ "  \n" ++ docCardsGo rest stack.dropLast
    else piece ++ docCardsGo rest stack

/-- `doc_cards` for one host (tasks.py 151-175): the slot descriptions
collected by `get_slots` are reversed (so `pop` yields the first), the inxi
slot output is scanned line by line, and the result is wrapped in the
per-host Markdown header. -/
def doc_cards (host : String) (descriptions inxiLines : List String) : String :=
  "### " ++ host ++ " \n\n" ++ docCardsGo inxiLines descriptions.reverse ++ " \n\n"

/-- Reference renderer for the pairing claim: walks the inxi lines with an
explicit list of what each device line is to be paired with, in emission
order - `some d` renders as the description `d`, `none` as the literal
`"Error"` marker. -/
def renderPaired : List String → List (Option String) → String
  | [], _ => ""
  | line :: rest, ds =>
    let m := markLine line
    let piece := m.1 ++ "   \n"
    if m.2 then
      match ds with
      | none :: ds2 => piece ++ "Error\n" ++ renderPaired rest ds2
      | some d :: ds2 => piece ++ d ++ "  \n" ++ renderPaired rest ds2
      | [] => piece ++ renderPaired rest []
    else piece ++ renderPaired rest ds

/-- The aggregation of `document_cards` (tasks.py 177-184): the per-host
results (host name paired with its rendered section) are sorted by host name
- Python's stable `sorted(results, key=lambda i: i.host.host)` - and the
sections are concatenated. -/
def document_cards_render (results : List (String × String)) : String :=
  String.join ((results.insertionSort (fun a b => a.1 ≤ b.1)).map Prod.snd)

instance : IsTotal (String × String) (fun a b => a.1 ≤ b.1) :=
  ⟨fun a b => le_total a.1 b.1⟩

instance : IsTrans (String × String) (fun a b => a.1 ≤ b.1) :=
  ⟨fun _ _ _ h1 h2 => le_trans h1 h2⟩

/-! ## Global host table and LLDP collection (tasks.py 205-244, 390-398) -/

/-- The global `HOSTS` table (tasks.py 226-244), in source order. -/
def HOSTS : List String :=
  ["astrid.dse.in.tum.de", "dan.dse.in.tum.de", "mickey.dse.in.tum.de",
   "bill.dse.in.tum.de", "nardole.dse.in.tum.de", "yasmin.dse.in.tum.de",
   "graham.dse.in.tum.de", "ryan.dse.in.tum.de", "christina.dse.in.tum.de",
   "jackson.dse.in.tum.de", "adelaide.dse.in.tum.de", "wilfred.dse.in.tum.de",
   "river.dse.in.tum.de", "jack.dse.in.tum.de", "clara.dse.in.tum.de",
   "amy.dse.in.tum.de", "rose.dse.in.tum.de"]

set_option linter.unusedVariables false in
/-- The deploy group built by `get_lldp_neighbors` (tasks.py 209):
`DeployGroup([DeployHost(h, user="root") for h in HOSTS])`. Its `hosts`
argument appears nowhere in the body. -/
def get_lldp_neighbors_group (hosts : List String) : List DeployHost :=
  HOSTS.map (fun h => ⟨h, some "root", none, none, none, none⟩)

/-- The host list computed by `update_lldp_info` (tasks.py 390-398):
the comma-separated user argument when nonempty, else `HOSTS`. -/
def update_lldp_info_hosts (hosts : String) : List String :=
  if hosts ≠ "" then pySplit hosts ',' else HOSTS

/-- The deploy group `update_lldp_info` ends up dispatching to: it passes its
host list to `get_lldp_neighbors`. -/
def update_lldp_info_group (hosts : String) : List DeployHost :=
  get_lldp_neighbors_group (update_lldp_info_hosts hosts)

/-! ## IPMI power measurement (tasks.py 695-744) -/

/-- The `dell` manufacturer group (tasks.py 249-255). -/
def dellHosts : List String :=
  ["ryan.dse.in.tum.de", "graham.dse.in.tum.de", "astrid.dse.in.tum.de",
   "dan.dse.in.tum.de", "mickey.dse.in.tum.de"]

/-- The `supermicro` manufacturer group (tasks.py 256-266). -/
def supermicroHosts : List String :=
  ["jackson.dse.in.tum.de", "christina.dse.in.tum.de", "adelaide.dse.in.tum.de",
   "wilfred.dse.in.tum.de", "river.dse.in.tum.de", "jack.dse.in.tum.de",
   "clara.dse.in.tum.de", "amy.dse.in.tum.de", "rose.dse.in.tum.de"]

/-- The `supermicro_broken` manufacturer group (tasks.py 267-270). -/
def supermicroBrokenHosts : List String :=
  ["bill.dse.in.tum.de", "nardole.dse.in.tum.de"]

/-- `ipmi_powerconsumption.mgmt_hostname` (tasks.py 700-704): split the
hostname on dots, append `"-mgmt"` to the first label, rejoin with dots. -/
def mgmt_hostname (hostname : String) : String :=
  match pySplit hostname '.' with
  | [] => pyJoinDot []
  | s :: rest => pyJoinDot ((s ++ "-mgmt") :: rest)

/-- `hostname.split(".")[0]` (tasks.py 712, 727): the first dot-delimited
label, reported in the measured-host list. -/
def shortName (hostname : String) : String :=
  (pySplit hostname '.').headD ""

/-- Python exceptions reachable in the power-reading parse. -/
inductive PyError where
  | indexError
  | valueError
deriving DecidableEq

deriving instance DecidableEq for Except

/-- The label under which a dell reading line is found (tasks.py 717). -/
def sensorLabel : String := "Sensor Reading"

/-- The label under which a supermicro reading line is found (tasks.py 734). -/
def dcmiLabel : String := "Instantaneous power reading:"

/-- The power-reading parse of `ipmi_powerconsumption` (tasks.py 716-720 and
731-737): take the first stdout line containing `label` - `[...][0]` raises
`IndexError` when no line matches - then
`line.strip().split(":")[1].strip().split(" ")[0]` - the `[1]` raises
`IndexError` when the line has no colon - and convert with `int`, which
raises `ValueError` on a non-numeral. -/
def parsePowerLine (stdoutLines : List String) (label : String) : Except PyError Nat :=
  match (stdoutLines.filter (fun l => strHasSub l label)).head? with
  | none => .error .indexError
  | some reading =>
    match ((pySplit (pyStrip reading) ':').get? 1) with
    | none => .error .indexError
    | some part =>
      match pyInt ((pySplit (pyStrip part) ' ').headD "") with
      | none => .error .valueError
      | some n => .ok n

/-- One manufacturer loop of `ipmi_powerconsumption` (tasks.py 711-739):
for each hostname, record its first label (`hosts += [hostname.split(".")[0]]`),
query `ipmitool` on the `-mgmt` management hostname - `readings` maps the
queried management hostname to the stdout lines returned - parse the
wattage and accumulate; a parse exception propagates and aborts the whole
task, so nothing after the failing host runs. Returns the reported host list
and wattage total of the loop. -/
def ipmiPass (label : String) (readings : String → List String) :
    List String → Except PyError (List String × Nat)
  | [] => .ok ([], 0)
  | n :: rest =>
    match parsePowerLine (readings (mgmt_hostname n)) label with
    | .error e => .error e
    | .ok w =>
      match ipmiPass label readings rest with
      | .error e => .error e
      | .ok (hs, t) => .ok (shortName n :: hs, w + t)

/-- The management hostnames actually queried by one manufacturer loop
before it either finishes or dies on a parse exception. -/
def ipmiPassQueried (label : String) (readings : String → List String) :
    List String → List String
  | [] => []
  | n :: rest =>
    mgmt_hostname n ::
      (match parsePowerLine (readings (mgmt_hostname n)) label with
       | .error _ => []
       | .ok _ => ipmiPassQueried label readings rest)

/-- `ipmi_powerconsumption` (tasks.py 695-744): the dell loop (label
`"Sensor Reading"`), then the supermicro loop (label
`"Instantaneous power reading:"`); `supermicro_broken` is never iterated.
Returns the measured-host list and total wattage printed at the end, or the
exception that aborted the task. -/
def ipmi_powerconsumption (readings : String → List String) :
    Except PyError (List String × Nat) :=
  match ipmiPass sensorLabel readings dellHosts with
  | .error e => .error e
  | .ok (h1, t1) =>
    match ipmiPass dcmiLabel readings supermicroHosts with
    | .error e => .error e
    | .ok (h2, t2) => .ok (h1 ++ h2, t1 + t2)

/-- The hosts reported as measured by a run of `ipmi_powerconsumption`
(nothing is reported when the task dies on an exception). -/
def measuredNames (readings : String → List String) : List String :=
  match ipmi_powerconsumption readings with
  | .ok (hs, _) => hs
  | .error _ => []

/-- All management hostnames queried during a run of
`ipmi_powerconsumption`, including a run that aborts part-way. -/
def powerQueried (readings : String → List String) : List String :=
  match ipmiPass sensorLabel readings dellHosts with
  | .error _ => ipmiPassQueried sensorLabel readings dellHosts
  | .ok _ =>
    ipmiPassQueried sensorLabel readings dellHosts ++
      ipmiPassQueried dcmiLabel readings supermicroHosts

/-! ## Filesystem model for the temporary staging directories
(`generate_ssh_cert` tasks.py 478-521, `reformat_install_nixos`
tasks.py 419-430)

Only directory existence is tracked. External commands (`c.run`) are driven
by a success oracle `stepOk`; a failing command raises and aborts the rest of
the `with` body, exactly as invoke's `UnexpectedExit` does. -/

/-- The local filesystem state: the set of directories that exist,
as a list of paths. -/
structure FS where
  dirs : List String

/-- `d` lies inside the tree rooted at `root` (or is `root` itself). -/
def underDir (root d : String) : Bool :=
  charsHasPre root.data d.data

/-- Create a directory (`os.mkdir` / `mkdir -p`). -/
def mkdirFS (d : String) (fs : FS) : FS :=
  ⟨d :: fs.dirs⟩

/-- Recursive deletion of the tree rooted at `root` (`shutil.rmtree`, which
is what cleaning up a `TemporaryDirectory` performs). -/
def rmtreeFS (root : String) (fs : FS) : FS :=
  ⟨fs.dirs.filter (fun d => !underDir root d)⟩

/-- Modelled from the Python standard library semantics of
`tempfile.TemporaryDirectory` used as a context manager (tasks.py 424, 485):
on entry the fresh directory `name` is created; on exit - normal or by
exception - its whole tree is removed. The body returns the outcome of the
`with` block together with the filesystem it left behind. -/
def withTempDirFS (name : String) (body : String → FS → Except Unit Unit × FS)
    (fs : FS) : Except Unit Unit × FS :=
  let fs1 := mkdirFS name fs
  let r := body name fs1
  (r.1, rmtreeFS name r.2)

/-- An external command driven by the success oracle: `.error` models the
exception invoke raises on a nonzero exit. -/
def runStep (stepOk : Nat → Bool) (k : Nat) : Except Unit Unit :=
  if stepOk k then .ok () else .error ()

/-- One iteration of the keytype loop of `generate_ssh_cert`
(tasks.py 488-508), for keytype number `k` (0 = rsa, 1 = ed25519): the
`sops --extract` runs with `warn=True` and never raises; if its stdout was
empty (`emptyOut k`) the key is created with `ssh-keygen` and written back
with two `sops --set` runs, any of which may fail; otherwise the existing
public key is written to the staging file locally. No directories are
created. -/
def keytypeStep (stepOk emptyOut : Nat → Bool) (k : Nat) : Except Unit Unit :=
  if emptyOut k then
    match runStep stepOk (10 * k + 1) with
    | .error e => .error e
    | .ok _ =>
      match runStep stepOk (10 * k + 2) with
      | .error e => .error e
      | .ok _ => runStep stepOk (10 * k + 3)
  else .ok ()

/-- The two iterations (rsa, ed25519) of the keytype loop. -/
def keytypeLoop (stepOk emptyOut : Nat → Bool) : Except Unit Unit :=
  match keytypeStep stepOk emptyOut 0 with
  | .error e => .error e
  | .ok _ => keytypeStep stepOk emptyOut 1

/-- `generate_ssh_cert` (tasks.py 478-521): inside
`with tempfile.TemporaryDirectory() as tmpdir` it creates
`tmpdir/etc/ssh` (step 0), runs the keytype loop, extracts the ssh CA
(step 5), signs the host key (step 6) and moves the certificate out
(step 7); every failing step raises out of the `with` block. -/
def generate_ssh_cert_fs (tmpdir : String) (stepOk emptyOut : Nat → Bool)
    (fs : FS) : Except Unit Unit × FS :=
  withTempDirFS tmpdir (fun tmp fs0 =>
    match runStep stepOk 0 with
    | .error e => (.error e, fs0)
    | .ok _ =>
      let fs1 := mkdirFS (tmp ++ "/etc/ssh") (mkdirFS (tmp ++ "/etc") fs0)
      match keytypeLoop stepOk emptyOut with
      | .error e => (.error e, fs1)
      | .ok _ =>
        match runStep stepOk 5 with
        | .error e => (.error e, fs1)
        | .ok _ =>
          match runStep stepOk 6 with
          | .error e => (.error e, fs1)
          | .ok _ => (runStep stepOk 7, fs1)) fs

/-- `decrypt_host_keys` (tasks.py 401-417): creates `tmpdir/etc` and
`tmpdir/etc/ssh` with `os.mkdir`, then extracts the four host key files with
one `sops` run each (steps 0-3), any of which may fail. -/
def decrypt_host_keys_fs (stepOk : Nat → Bool) (tmpdir : String) (fs : FS) :
    Except Unit Unit × FS :=
  let fs1 := mkdirFS (tmpdir ++ "/etc/ssh") (mkdirFS (tmpdir ++ "/etc") fs)
  match runStep stepOk 0 with
  | .error e => (.error e, fs1)
  | .ok _ =>
    match runStep stepOk 1 with
    | .error e => (.error e, fs1)
    | .ok _ =>
      match runStep stepOk 2 with
      | .error e => (.error e, fs1)
      | .ok _ => (runStep stepOk 3, fs1)

/-- `reformat_install_nixos` (tasks.py 419-430): inside
`with tempfile.TemporaryDirectory() as tmpdir` it decrypts the host keys
into the staging tree and then runs the PXE installer (step 4); every
failing step raises out of the `with` block. -/
def reformat_install_nixos_fs (tmpdir : String) (stepOk : Nat → Bool)
    (fs : FS) : Except Unit Unit × FS :=
  withTempDirFS tmpdir (fun tmp fs0 =>
    match decrypt_host_keys_fs stepOk tmp fs0 with
    | (.error e, fs1) => (.error e, fs1)
    | (.ok _, fs1) => (runStep stepOk 4, fs1)) fs

/-! ## Remaining definitions used to state and witness the claims -/

/-- A deploy event that is a retry (second activation attempt). -/
def isRetryEv : Ev → Bool
  | Ev.runCmd _ 2 _ => true
  | _ => false

/-- A deploy event that is a first activation attempt. -/
def isFirstAttemptEv : Ev → Bool
  | Ev.runCmd _ 1 _ => true
  | _ => false

/-- An activation attempt belonging to the named host. -/
def isAttemptOf (name : String) : Ev → Bool
  | Ev.runCmd h _ _ => h == name
  | _ => false

/-- The retry-serialization property claimed of `deploy_nixos`: in a trace,
every retry event comes after every first-attempt event (retries form a
second full pass after all first-pass results are known). -/
def RetriesAfterAllFirsts (t : List Ev) : Prop :=
  ∀ (i j : Nat) (hi : i < t.length) (hj : j < t.length),
    isRetryEv (t.get ⟨i, hi⟩) = true → isFirstAttemptEv (t.get ⟨j, hj⟩) = true →
    j < i

/-- Two-host deploy scenario: host `a` fails its first activation and
succeeds on retry, host `b` succeeds at once. -/
def hostsEx : List HostRun := [⟨"a", false, true⟩, ⟨"b", true, true⟩]

/-- A schedule of `hostsEx` in which host `a` runs to completion - retry
included - before host `b` starts. -/
def bodyEx : List Ev :=
  [Ev.rsync "a", Ev.runCmd "a" 1 false, Ev.runCmd "a" 2 true,
   Ev.rsync "b", Ev.runCmd "b" 1 true]

/-- The full deploy trace of that schedule. -/
def tEx : List Ev := Ev.flakeMeta :: bodyEx

/-- The sibling-isolation property claimed of `ipmi_powerconsumption`: a
host whose power reading parses is reported measured no matter what the
other hosts' output looks like. -/
def ParseFailureIsIsolated : Prop :=
  ∀ (readings : String → List String) (h : String), h ∈ dellHosts →
    (∃ w, parsePowerLine (readings (mgmt_hostname h)) sensorLabel = Except.ok w) →
    shortName h ∈ measuredNames readings

/-- Well-formed ipmitool output carrying both manufacturers' labels. -/
def goodLines : List String :=
  ["Sensor Reading        : 100 (+ 0) Watts",
   "Instantaneous power reading:                   220 Watts"]

/-- Readings oracle in which ryan's management controller returns output
matching neither manufacturer label and every other host answers well. -/
def badReadings : String → List String :=
  fun m => if m = "ryan-mgmt.dse.in.tum.de" then ["no such sensor"] else goodLines

/-- Readings oracle in which every management controller answers well. -/
def goodR : String → List String := fun _ => goodLines

/-- Readings oracle that differs from `goodR` only on bill's management
controller - a `supermicro_broken` host. -/
def billBrokenR : String → List String :=
  fun m => if m = "bill-mgmt.dse.in.tum.de" then [] else goodLines

/-! ## Theorems -/

/-- Helper: after `rmtreeFS root`, nothing under `root` remains. -/
theorem rmtreeFS_clean (root : String) (fs : FS) :
    (rmtreeFS root fs).dirs.filter (fun d => underDir root d) = [] := by
  unfold rmtreeFS
  rw [List.filter_eq_nil_iff]
  intro a ha
  have h2 := List.of_mem_filter ha
  simp only [Bool.not_eq_true'] at h2
  simp [h2]

/-- C1: in a configuration deployment the activation command is attempted
once per host; exactly when the first attempt returns a nonzero status the
identical command is retried exactly once, and the host's final status is
success precisely when the first or the retry attempt exited zero
(tasks.py 71-74). -/
theorem claim1_retry_exactly_once (h : DeployHost) (run : Nat → Nat) :
    ((deployAttempts h run).1 =
      if run 0 = 0 then [(buildCmd h, run 0)]
      else [(buildCmd h, run 0), (buildCmd h, run 1)]) ∧
    ((deployAttempts h run).2 = true ↔ run 0 = 0 ∨ run 1 = 0) := by
  unfold deployAttempts
  by_cases h0 : run 0 = 0 <;> simp [h0]

/-- C8: `generate_ssh_cert` and `reformat_install_nixos` stage decrypted key
material only inside a `tempfile.TemporaryDirectory`; whatever the external
commands do (`stepOk`, `emptyOut` range over all oracles, so over success and
every failure point), after the task finishes no directory under the staging
root remains on the filesystem. -/
theorem claim8_staging_dir_removed (tmpdir : String) (stepOk emptyOut : Nat → Bool)
    (fs : FS) :
    ((generate_ssh_cert_fs tmpdir stepOk emptyOut fs).2.dirs.filter
        (fun d => underDir tmpdir d) = []) ∧
    ((reformat_install_nixos_fs tmpdir stepOk fs).2.dirs.filter
        (fun d => underDir tmpdir d) = []) :=
  ⟨rmtreeFS_clean tmpdir _, rmtreeFS_clean tmpdir _⟩

/-- C9: `get_lldp_neighbors` ignores its host-list argument and always
dispatches to the full global `HOSTS` table (tasks.py 209), so
`update_lldp_info` reaches the full fleet even when the user passes a
subset (tasks.py 390-398). -/
theorem claim9_lldp_ignores_argument :
    (∀ hs : List String, get_lldp_neighbors_group hs =
        HOSTS.map (fun h => ⟨h, some "root", none, none, none, none⟩)) ∧
    (∀ s : String, update_lldp_info_group s =
        HOSTS.map (fun h => ⟨h, some "root", none, none, none, none⟩)) ∧
    update_lldp_info_group "amy.dse.in.tum.de,rose.dse.in.tum.de" =
      HOSTS.map (fun h => ⟨h, some "root", none, none, none, none⟩) :=
  ⟨fun _ => rfl, fun _ => rfl, rfl⟩

/-- Helper: `splitChars` never returns the empty list. -/
theorem splitChars_ne_nil (sep : Char) : ∀ l : List Char, splitChars sep l ≠ []
  | [] => by simp [splitChars]
  | c :: cs => by
    by_cases hc : (c == sep) = true <;> simp [splitChars, hc]

/-- Helper: splitting a separator-free piece yields just that piece. -/
theorem splitChars_no_sep (sep : Char) : ∀ l : List Char, sep ∉ l →
    splitChars sep l = [l]
  | [], _ => rfl
  | c :: cs, h => by
    have hc : (c == sep) = false := by
      simp only [beq_eq_false_iff_ne, ne_eq]
      exact fun e => h (e ▸ List.mem_cons_self c cs)
    have hcs := splitChars_no_sep sep cs (fun hm => h (List.mem_cons_of_mem _ hm))
    simp [splitChars, hcs, hc]

/-- Helper: splitting past a separator-free head piece. -/
theorem splitChars_append (sep : Char) : ∀ (l r : List Char), sep ∉ l →
    splitChars sep (l ++ sep :: r) = l :: splitChars sep r
  | [], r, _ => by simp [splitChars]
  | c :: l, r, h => by
    have hc : (c == sep) = false := by
      simp only [beq_eq_false_iff_ne, ne_eq]
      exact fun e => h (e ▸ List.mem_cons_self c l)
    have hl := splitChars_append sep l r (fun hm => h (List.mem_cons_of_mem _ hm))
    simp [splitChars, hl, hc]

/-- Helper: `splitChars` is a left inverse of `joinChars` on separator-free
pieces. -/
theorem splitChars_joinChars (sep : Char) : ∀ (p : List Char) (ps : List (List Char)),
    sep ∉ p → (∀ q ∈ ps, sep ∉ q) →
    splitChars sep (joinChars sep (p :: ps)) = p :: ps
  | p, [], hp, _ => by simp only [joinChars]; exact splitChars_no_sep sep p hp
  | p, q :: ps, hp, hq => by
    have hrec := splitChars_joinChars sep q ps (hq q (List.mem_cons_self q ps))
      (fun x hx => hq x (List.mem_cons_of_mem _ hx))
    simp only [joinChars, splitChars_append sep p _ hp, hrec]

/-- C5: the management-hostname derivation of `ipmi_powerconsumption`
(tasks.py 700-704) maps `"ryan.dse.in.tum.de"` to
`"ryan-mgmt.dse.in.tum.de"`, and in general, for any hostname given as
dot-free labels, it appends `"-mgmt"` to the first label and leaves every
other label unchanged. -/
theorem claim5_mgmt_hostname (first : String) (rest : List String)
    (h1 : '.' ∉ first.data) (h2 : ∀ r ∈ rest, '.' ∉ r.data) :
    mgmt_hostname "ryan.dse.in.tum.de" = "ryan-mgmt.dse.in.tum.de" ∧
    mgmt_hostname (pyJoinDot (first :: rest)) = pyJoinDot ((first ++ "-mgmt") :: rest) := by
  refine ⟨by decide, ?_⟩
  have key : pySplit (pyJoinDot (first :: rest)) '.' = first :: rest := by
    unfold pySplit pyJoinDot
    have hdata : (String.mk (joinChars '.' ((first :: rest).map String.data))).data
        = joinChars '.' ((first :: rest).map String.data) := rfl
    rw [hdata, List.map_cons,
      splitChars_joinChars '.' first.data (rest.map String.data) h1
        (fun q hq => by
          obtain ⟨r, hr, rfl⟩ := List.mem_map.mp hq
          exact h2 r hr)]
    have hmapid : ∀ l : List String, List.map (String.mk ∘ String.data) l = l := by
      intro l
      induction l with
      | nil => rfl
      | cons a t ih => exact congrArg (List.cons a) ih
    simp only [List.map_cons, List.map_map, hmapid]
  unfold mgmt_hostname
  rw [key]

/-- C5 witness: the theorem applied to the labels of
`"ryan.dse.in.tum.de"`. -/
theorem claim5_mgmt_hostname_witness :
    mgmt_hostname "ryan.dse.in.tum.de" = "ryan-mgmt.dse.in.tum.de" ∧
    mgmt_hostname (pyJoinDot ["ryan", "dse", "in", "tum", "de"]) =
      pyJoinDot ["ryan-mgmt", "dse", "in", "tum", "de"] :=
  claim5_mgmt_hostname "ryan" ["dse", "in", "tum", "de"] (by decide) (by decide)

/-- Helper: the `doc_cards` line loop over a reversed description stack
renders exactly the positional pairing of device lines with descriptions,
padding with the `"Error"` marker once descriptions run out. -/
theorem docCardsGo_renderPaired :
    ∀ (lines descs : List String),
      docCardsGo lines descs.reverse =
        renderPaired lines ((descs.take (devCount lines)).map some ++
          List.replicate (devCount lines - descs.length) none) := by
  intro lines
  induction lines with
  | nil => intro descs; rfl
  | cons line rest ih =>
    intro descs
    cases hm : (markLine line).2 with
    | false =>
      have hk : devCount (line :: rest) = devCount rest := by
        simp [devCount, hm]
      simp only [docCardsGo, renderPaired, hm, hk, Bool.false_eq_true, if_false]
      rw [ih descs]
    | true =>
      have hk : devCount (line :: rest) = devCount rest + 1 := by
        simp [devCount, hm, Nat.add_comm]
      cases descs with
      | nil =>
        simp only [docCardsGo, renderPaired, hm, hk, List.reverse_nil, if_true,
          List.getLast?_nil, List.take_nil, List.map_nil, List.nil_append,
          Nat.sub_zero, List.length_nil, List.replicate_succ]
        have h0 := ih []
        simp only [List.reverse_nil, List.take_nil, List.map_nil,
          List.nil_append, List.length_nil, Nat.sub_zero] at h0
        rw [h0]
      | cons d ds =>
        simp only [docCardsGo, renderPaired, hm, hk, List.reverse_cons, if_true,
          List.getLast?_concat, List.dropLast_concat, List.take_succ_cons,
          List.map_cons, List.cons_append, List.length_cons, Nat.succ_sub_succ]
        rw [ih ds]

/-- C3: for a host with `K` device-status lines, `doc_cards` pairs the Nth
status line with the Nth collected slot description in emission order (the
descriptions are reversed once and popped from the back, tasks.py 154, 174);
when fewer than `K` descriptions were collected, each shortfall entry renders
as the literal `"Error"` marker (tasks.py 171-172), and the function is total
- no exception is raised. -/
theorem claim3_status_description_pairing (host : String)
    (descriptions inxiLines : List String) :
    doc_cards host descriptions inxiLines =
      "### " ++ host ++ " \n\n" ++
        renderPaired inxiLines
          ((descriptions.take (devCount inxiLines)).map some ++
            List.replicate (devCount inxiLines - descriptions.length) none) ++
      " \n\n" := by
  unfold doc_cards
  rw [docCardsGo_renderPaired inxiLines descriptions]

/-- Helper: two sorted lists with duplicate-free keys that are permutations
of each other are equal. -/
theorem sorted_eq_of_perm_of_nodup_keys :
    ∀ (l l2 : List (String × String)), l.Perm l2 →
      l.Sorted (fun a b => a.1 ≤ b.1) → l2.Sorted (fun a b => a.1 ≤ b.1) →
      (l.map Prod.fst).Nodup → l = l2
  | [], l2, hp, _, _, _ => hp.nil_eq
  | a :: tl, l2, hp, hs1, hs2, hnd => by
    cases l2 with
    | nil => exact absurd hp.symm (by simp)
    | cons b tl2 =>
      have hab : a = b := by
        by_contra hne
        have ha2 : a ∈ tl2 := by
          rcases List.mem_cons.mp (hp.subset (List.mem_cons_self a tl)) with h | h
          · exact absurd h hne
          · exact h
        have hb1 : b ∈ tl := by
          rcases List.mem_cons.mp (hp.symm.subset (List.mem_cons_self b tl2)) with h | h
          · exact absurd h.symm hne
          · exact h
        have h1 : a.1 ≤ b.1 := List.rel_of_sorted_cons hs1 b hb1
        have h2 : b.1 ≤ a.1 := List.rel_of_sorted_cons hs2 a ha2
        exact hne (List.inj_on_of_nodup_map hnd (List.mem_cons_self a tl)
          (List.mem_cons_of_mem a hb1) (le_antisymm h1 h2))
      subst hab
      have htl := sorted_eq_of_perm_of_nodup_keys tl tl2 hp.cons_inv
        hs1.of_cons hs2.of_cons (by simpa using hnd.of_cons)
      rw [htl]

/-- C7: `document_cards` sorts the per-host sections by hostname before
concatenation (tasks.py 178-184), so as long as hostnames are distinct the
rendered output is the same for every completion order (permutation) of the
per-host results. -/
theorem claim7_render_order_invariant (res res2 : List (String × String))
    (hperm : res.Perm res2) (hnd : (res.map Prod.fst).Nodup) :
    document_cards_render res = document_cards_render res2 := by
  unfold document_cards_render
  have hp : (res.insertionSort (fun a b => a.1 ≤ b.1)).Perm
      (res2.insertionSort (fun a b => a.1 ≤ b.1)) :=
    (List.perm_insertionSort _ res).trans
      (hperm.trans (List.perm_insertionSort _ res2).symm)
  have hndSorted : ((res.insertionSort (fun a b => a.1 ≤ b.1)).map Prod.fst).Nodup :=
    (((List.perm_insertionSort _ res).map Prod.fst).nodup_iff).mpr hnd
  rw [sorted_eq_of_perm_of_nodup_keys _ _ hp
    (List.sorted_insertionSort _ res) (List.sorted_insertionSort _ res2) hndSorted]

/-- C7 witness: swapping the completion order of two hosts leaves the
rendered document unchanged. -/
theorem claim7_render_order_invariant_witness :
    document_cards_render [("rose", "rose-section"), ("amy", "amy-section")] =
      document_cards_render [("amy", "amy-section"), ("rose", "rose-section")] :=
  claim7_render_order_invariant _ _ (by decide) (by decide)

/-- Helper: every event of an interleaving comes from one of its two
streams. -/
theorem interleave_mem {xs ys t : List Ev} (h : Interleave xs ys t) :
    ∀ x ∈ t, x ∈ xs ∨ x ∈ ys := by
  induction h with
  | nil => intro x hx; cases hx
  | left h ih =>
    intro z hz
    rcases List.mem_cons.mp hz with rfl | hz2
    · exact Or.inl (List.mem_cons_self _ _)
    · rcases ih z hz2 with h1 | h2
      · exact Or.inl (List.mem_cons_of_mem _ h1)
      · exact Or.inr h2
  | right h ih =>
    intro z hz
    rcases List.mem_cons.mp hz with rfl | hz2
    · exact Or.inr (List.mem_cons_self _ _)
    · rcases ih z hz2 with h1 | h2
      · exact Or.inl h1
      · exact Or.inr (List.mem_cons_of_mem _ h2)

/-- Helper: every event of a schedule comes from one of its streams. -/
theorem sched_mem {ls : List (List Ev)} {t : List Ev} (h : Sched ls t) :
    ∀ x ∈ t, ∃ l ∈ ls, x ∈ l := by
  induction h with
  | nil => intro x hx; cases hx
  | cons hint hsched ih =>
    intro z hz
    rcases interleave_mem hint z hz with h1 | h2
    · exact ⟨_, List.mem_cons_self _ _, h1⟩
    · obtain ⟨l2, hl2, hzl⟩ := ih z h2
      exact ⟨l2, List.mem_cons_of_mem _ hl2, hzl⟩

/-- Helper: filtering an interleaving by a predicate that rejects the whole
right stream projects out the left stream's matches, in order. -/
theorem interleave_filter_keep_left (p : Ev → Bool) {xs ys t : List Ev}
    (h : Interleave xs ys t) (hys : ∀ y ∈ ys, p y = false) :
    t.filter p = xs.filter p := by
  induction h with
  | nil => rfl
  | left h ih =>
    simp only [List.filter_cons]
    rw [ih (fun y hy => hys y hy)]
  | right h ih =>
    rename_i y xs2 ys2 t2
    simp only [List.filter_cons, hys y (List.mem_cons_self _ _)]
    exact ih (fun z hz => hys z (List.mem_cons_of_mem _ hz))

/-- Helper: filtering an interleaving by a predicate that rejects the whole
left stream projects out the right stream's matches, in order. -/
theorem interleave_filter_keep_right (p : Ev → Bool) {xs ys t : List Ev}
    (h : Interleave xs ys t) (hxs : ∀ x ∈ xs, p x = false) :
    t.filter p = ys.filter p := by
  induction h with
  | nil => rfl
  | left h ih =>
    rename_i x xs2 ys2 t2
    simp only [List.filter_cons, hxs x (List.mem_cons_self _ _)]
    exact ih (fun z hz => hxs z (List.mem_cons_of_mem _ hz))
  | right h ih =>
    simp only [List.filter_cons]
    rw [ih (fun z hz => hxs z hz)]

/-- Helper: in any schedule, filtering by a predicate rejected by every
stream other than the selected one projects out exactly the selected
stream's matches, in their program order. -/
theorem sched_filter_proj (p : Ev → Bool) {ls : List (List Ev)} {t : List Ev}
    (h : Sched ls t) :
    ∀ (pre : List (List Ev)) (sel : List Ev) (post : List (List Ev)),
      ls = pre ++ sel :: post →
      (∀ l ∈ pre, ∀ x ∈ l, p x = false) →
      (∀ l ∈ post, ∀ x ∈ l, p x = false) →
      t.filter p = sel.filter p := by
  induction h with
  | nil =>
    intro pre sel post heq _ _
    exact absurd heq (by cases pre <;> simp)
  | cons hint hsched ih =>
    rename_i l ls2 t2 t1
    intro pre sel post heq hpre hpost
    cases pre with
    | nil =>
      simp only [List.nil_append] at heq
      injection heq with h1 h2
      subst h1
      have ht2 : ∀ y ∈ t2, p y = false := by
        intro y hy
        obtain ⟨l2, hl2, hyl⟩ := sched_mem hsched y hy
        exact hpost l2 (h2 ▸ hl2) y hyl
      exact interleave_filter_keep_left p hint ht2
    | cons q pre2 =>
      simp only [List.cons_append] at heq
      injection heq with h1 h2
      have hl : ∀ x ∈ l, p x = false :=
        fun x hx => hpre q (List.mem_cons_self _ _) x (h1 ▸ hx)
      rw [interleave_filter_keep_right p hint hl]
      exact ih pre2 sel post h2
        (fun l2 hl2 => hpre l2 (List.mem_cons_of_mem _ hl2)) hpost

/-- Helper: every event of a host's callback trace belongs to that host. -/
theorem hostTrace_evHost (hr : HostRun) : ∀ x ∈ hostTrace hr, evHost x = some hr.name := by
  intro x hx
  unfold hostTrace at hx
  by_cases hf : hr.firstOk
  · simp [hf] at hx
    rcases hx with rfl | rfl <;> rfl
  · simp [hf] at hx
    rcases hx with rfl | rfl | rfl <;> rfl

/-- C6: in every reachable trace of `deploy_nixos`, the flake metadata
(build reference) resolution is the first event and occurs exactly once;
and, for distinct hostnames, each host's own events are exactly its rsync
artifact sync followed by its activation attempt(s), in that order
(tasks.py 32-39 then 41-74). -/
theorem claim6_resolve_once_sync_then_activate (hosts : List HostRun) (t : List Ev)
    (hT : DeployTrace hosts t) (hnd : (hosts.map HostRun.name).Nodup) :
    t.head? = some Ev.flakeMeta ∧ t.count Ev.flakeMeta = 1 ∧
    ∀ (pre : List HostRun) (hr : HostRun) (post : List HostRun),
      hosts = pre ++ hr :: post →
      t.filter (fun e => evHost e == some hr.name) = hostTrace hr := by
  obtain ⟨body, hsched, rfl⟩ := hT
  have hbody : Ev.flakeMeta ∉ body := by
    intro hmem
    obtain ⟨l, hl, hxl⟩ := sched_mem hsched _ hmem
    obtain ⟨hr, _, rfl⟩ := List.mem_map.mp hl
    have := hostTrace_evHost hr _ hxl
    simp [evHost] at this
  refine ⟨rfl, ?_, ?_⟩
  · simp [List.count_cons, List.count_eq_zero.mpr hbody]
  · intro pre hr post heq
    have hothers : ∀ hr2 : HostRun, hr2 ∈ pre ++ post → hr2.name ≠ hr.name := by
      intro hr2 hmem2 hname
      have hmap : hosts.map HostRun.name =
          pre.map HostRun.name ++ hr.name :: post.map HostRun.name := by
        simp [heq]
      rw [hmap] at hnd
      have hmid := List.nodup_middle.mp hnd
      have hnotin := (List.nodup_cons.mp hmid).1
      have : hr2.name ∈ pre.map HostRun.name ++ post.map HostRun.name := by
        rcases List.mem_append.mp hmem2 with h2 | h2
        · exact List.mem_append.mpr (Or.inl (List.mem_map_of_mem _ h2))
        · exact List.mem_append.mpr (Or.inr (List.mem_map_of_mem _ h2))
      exact hnotin (hname ▸ this)
    have hfilterhead :
        ((Ev.flakeMeta :: body).filter (fun e => evHost e == some hr.name)) =
          body.filter (fun e => evHost e == some hr.name) := by
      simp [List.filter_cons, evHost]
    rw [hfilterhead]
    have hdecomp : hosts.map hostTrace =
        pre.map hostTrace ++ hostTrace hr :: post.map hostTrace := by
      simp [heq]
    have hproj := sched_filter_proj (fun e => evHost e == some hr.name) hsched
      (pre.map hostTrace) (hostTrace hr) (post.map hostTrace) hdecomp
      (by
        intro l hl x hx
        obtain ⟨hr2, hmem2, rfl⟩ := List.mem_map.mp hl
        have hne := hothers hr2 (List.mem_append.mpr (Or.inl hmem2))
        simp [hostTrace_evHost hr2 x hx, hne])
      (by
        intro l hl x hx
        obtain ⟨hr2, hmem2, rfl⟩ := List.mem_map.mp hl
        have hne := hothers hr2 (List.mem_append.mpr (Or.inr hmem2))
        simp [hostTrace_evHost hr2 x hx, hne])
    rw [hproj]
    exact List.filter_eq_self.mpr (fun x hx => by
      simp [hostTrace_evHost hr x hx])

/-- Helper: the concrete schedule in which host `a` finishes - retry
included - before host `b` starts. -/
theorem schedEx : Sched (hostsEx.map hostTrace) bodyEx :=
  Sched.cons
    (Interleave.left (Interleave.left (Interleave.left
      (Interleave.right (Interleave.right Interleave.nil)))))
    (Sched.cons (Interleave.left (Interleave.left Interleave.nil)) Sched.nil)

/-- Helper: `tEx` is a reachable deploy trace of `hostsEx`. -/
theorem deployTraceEx : DeployTrace hostsEx tEx :=
  ⟨bodyEx, schedEx, rfl⟩

/-- C6 witness: the theorem applied to the two-host scenario `hostsEx` and
its concrete trace `tEx`, instantiated at host `a`. -/
theorem claim6_witness :
    tEx.head? = some Ev.flakeMeta ∧ tEx.count Ev.flakeMeta = 1 ∧
    tEx.filter (fun e => evHost e == some "a") =
      [Ev.rsync "a", Ev.runCmd "a" 1 false, Ev.runCmd "a" 2 true] := by
  have h := claim6_resolve_once_sync_then_activate hostsEx tEx deployTraceEx (by decide)
  exact ⟨h.1, h.2.1, h.2.2 [] ⟨"a", false, true⟩ [⟨"b", true, true⟩] rfl⟩

/-- C2 counterexample: the claim that no retry begins before every host's
first activation attempt has completed is false for `deploy_nixos`: the
retry happens inline in the same per-host callback (tasks.py 71-74), so in
the reachable trace `tEx` host `a` retries (index 3) before host `b` makes
its first attempt (index 5). -/
theorem claim2_counterexample :
    ¬ (∀ (hosts : List HostRun) (t : List Ev),
        DeployTrace hosts t → RetriesAfterAllFirsts t) := by
  intro hclaim
  have h := hclaim hostsEx tEx deployTraceEx 3 5 (by decide) (by decide)
    (by decide) (by decide)
  omega

/-- C2 amended: the retry is not a separate second pass; it runs inline,
immediately after that host's own failed first attempt, and may interleave
with other hosts' first attempts. What does hold per host: its activation
attempts, projected from any reachable trace, are exactly one successful
first attempt, or a failed first attempt immediately followed by the one
retry (tasks.py 71-74). -/
theorem claim2_amended_inline_retry (hosts : List HostRun) (t : List Ev)
    (hT : DeployTrace hosts t) (hnd : (hosts.map HostRun.name).Nodup) :
    ∀ (pre : List HostRun) (hr : HostRun) (post : List HostRun),
      hosts = pre ++ hr :: post →
      t.filter (isAttemptOf hr.name) =
        (if hr.firstOk then [Ev.runCmd hr.name 1 true]
         else [Ev.runCmd hr.name 1 false, Ev.runCmd hr.name 2 hr.secondOk]) := by
  obtain ⟨body, hsched, rfl⟩ := hT
  intro pre hr post heq
  have hothers : ∀ hr2 : HostRun, hr2 ∈ pre ++ post → hr2.name ≠ hr.name := by
    intro hr2 hmem2 hname
    have hmap : hosts.map HostRun.name =
        pre.map HostRun.name ++ hr.name :: post.map HostRun.name := by
      simp [heq]
    rw [hmap] at hnd
    have hnotin := (List.nodup_cons.mp (List.nodup_middle.mp hnd)).1
    have : hr2.name ∈ pre.map HostRun.name ++ post.map HostRun.name := by
      rcases List.mem_append.mp hmem2 with h2 | h2
      · exact List.mem_append.mpr (Or.inl (List.mem_map_of_mem _ h2))
      · exact List.mem_append.mpr (Or.inr (List.mem_map_of_mem _ h2))
    exact hnotin (hname ▸ this)
  have hattof : ∀ (hr2 : HostRun) (x : Ev), x ∈ hostTrace hr2 →
      isAttemptOf hr.name x = true → hr2.name = hr.name := by
    intro hr2 x hx hatt
    have hev := hostTrace_evHost hr2 x hx
    cases x with
    | flakeMeta => simp [isAttemptOf] at hatt
    | rsync h2 => simp [isAttemptOf] at hatt
    | runCmd h2 a ok =>
      simp [evHost] at hev
      simp [isAttemptOf] at hatt
      rw [hev] at hatt
      exact hatt
  have hfilterhead :
      ((Ev.flakeMeta :: body).filter (isAttemptOf hr.name)) =
        body.filter (isAttemptOf hr.name) := by
    simp [List.filter_cons, isAttemptOf]
  rw [hfilterhead]
  have hdecomp : hosts.map hostTrace =
      pre.map hostTrace ++ hostTrace hr :: post.map hostTrace := by
    simp [heq]
  have hproj := sched_filter_proj (isAttemptOf hr.name) hsched
    (pre.map hostTrace) (hostTrace hr) (post.map hostTrace) hdecomp
    (by
      intro l hl x hx
      obtain ⟨hr2, hmem2, rfl⟩ := List.mem_map.mp hl
      have hne := hothers hr2 (List.mem_append.mpr (Or.inl hmem2))
      by_contra hcon
      simp only [Bool.not_eq_false] at hcon
      exact hne (hattof hr2 x hx hcon))
    (by
      intro l hl x hx
      obtain ⟨hr2, hmem2, rfl⟩ := List.mem_map.mp hl
      have hne := hothers hr2 (List.mem_append.mpr (Or.inr hmem2))
      by_contra hcon
      simp only [Bool.not_eq_false] at hcon
      exact hne (hattof hr2 x hx hcon))
  rw [hproj]
  by_cases hf : hr.firstOk <;>
    simp [hostTrace, hf, List.filter_cons, isAttemptOf]

/-- C2 amended witness: in the two-host scenario, the projection of host
`a`'s attempts from the concrete trace is its failed first attempt followed
immediately by its retry. -/
theorem claim2_amended_witness :
    tEx.filter (isAttemptOf "a") =
      [Ev.runCmd "a" 1 false, Ev.runCmd "a" 2 true] := by
  have h := claim2_amended_inline_retry hostsEx tEx deployTraceEx (by decide)
    [] ⟨"a", false, true⟩ [⟨"b", true, true⟩] rfl
  simpa using h

/-- Helper: a manufacturer loop never reports success when some host in it
has an unparseable power reading - the exception aborts the whole task. -/
theorem ipmiPass_no_ok_of_bad (label : String) (readings : String → List String) :
    ∀ (names : List String) (b : String), b ∈ names →
      (∀ w, parsePowerLine (readings (mgmt_hostname b)) label ≠ Except.ok w) →
      ∀ p, ipmiPass label readings names ≠ Except.ok p := by
  intro names
  induction names with
  | nil => intro b hb; cases hb
  | cons n rest ih =>
    intro b hb hbad p hok
    unfold ipmiPass at hok
    rcases List.mem_cons.mp hb with rfl | hbr
    · cases hpar : parsePowerLine (readings (mgmt_hostname b)) label with
      | error e => rw [hpar] at hok; cases hok
      | ok w => exact hbad w hpar
    · cases hpar : parsePowerLine (readings (mgmt_hostname n)) label with
      | error e => rw [hpar] at hok; cases hok
      | ok w =>
        rw [hpar] at hok
        cases hrest : ipmiPass label readings rest with
        | error e => rw [hrest] at hok; cases hok
        | ok q => exact ih b hbr hbad q hrest

/-- C4 counterexample: the claim that an unparseable power reading does not
abort the measurement of the sibling hosts is false: with `badReadings`
(ryan's controller answers garbage, every other controller answers well)
graham's reading parses, yet the run reports no measured host at all -
the loop in tasks.py 711-739 is sequential and the `IndexError` propagates. -/
theorem claim4_counterexample : ¬ ParseFailureIsIsolated := by
  intro hclaim
  have h := hclaim badReadings "graham.dse.in.tum.de" (by decide)
    ⟨100, by decide⟩
  exact absurd h (by decide)

/-- C4 amended: output matching neither manufacturer label is indeed a hard
failure - the empty list comprehension makes `[...][0]` raise `IndexError` -
but far from sparing the sibling hosts, it aborts the whole measurement run:
whenever any host of a manufacturer loop has an unparseable reading, the
task never reaches its report, so no host is reported measured
(tasks.py 711-744). -/
theorem claim4_amended_hard_failure_aborts_run (out : List String) (label : String)
    (names : List String) (b : String) (readings : String → List String)
    (hno : ∀ l ∈ out, strHasSub l label = false)
    (hb : b ∈ names)
    (hbad : ∀ w, parsePowerLine (readings (mgmt_hostname b)) label ≠ Except.ok w) :
    parsePowerLine out label = Except.error PyError.indexError ∧
    ∀ p, ipmiPass label readings names ≠ Except.ok p := by
  constructor
  · have hfil : out.filter (fun l => strHasSub l label) = [] :=
      List.filter_eq_nil_iff.mpr (fun a ha => by simp [hno a ha])
    unfold parsePowerLine
    rw [hfil]
    rfl
  · exact ipmiPass_no_ok_of_bad label readings names b hb hbad

/-- C4 amended witness: the theorem applied to ryan's garbage output inside
the dell loop under `badReadings`. -/
theorem claim4_amended_witness :
    parsePowerLine ["no such sensor"] sensorLabel = Except.error PyError.indexError ∧
    ∀ p, ipmiPass sensorLabel badReadings dellHosts ≠ Except.ok p := by
  have hparse : parsePowerLine (badReadings (mgmt_hostname "ryan.dse.in.tum.de"))
      sensorLabel = Except.error PyError.indexError := by decide
  exact claim4_amended_hard_failure_aborts_run ["no such sensor"] sensorLabel
    dellHosts "ryan.dse.in.tum.de" badReadings (by decide) (by decide)
    (fun w hw => by rw [hparse] at hw; cases hw)

/-- Helper: a manufacturer loop only ever queries the management hostnames
of the hosts in its list. -/
theorem ipmiPassQueried_subset (label : String) (readings : String → List String) :
    ∀ names : List String, ∀ q ∈ ipmiPassQueried label readings names,
      q ∈ names.map mgmt_hostname := by
  intro names
  induction names with
  | nil => intro q hq; cases hq
  | cons n rest ih =>
    intro q hq
    unfold ipmiPassQueried at hq
    rcases List.mem_cons.mp hq with rfl | hq2
    · exact List.mem_map_of_mem _ (List.mem_cons_self _ _)
    · cases hpar : parsePowerLine (readings (mgmt_hostname n)) label with
      | error e => rw [hpar] at hq2; cases hq2
      | ok w =>
        rw [hpar] at hq2
        exact List.mem_cons_of_mem _ (ih q hq2)

/-- Helper: when a manufacturer loop succeeds, the hosts it reports are
exactly the first labels of its host list, in order. -/
theorem ipmiPass_ok_names (label : String) (readings : String → List String) :
    ∀ (names hs : List String) (t : Nat),
      ipmiPass label readings names = Except.ok (hs, t) → hs = names.map shortName := by
  intro names
  induction names with
  | nil =>
    intro hs t hok
    unfold ipmiPass at hok
    injection hok with h
    injection h with h1 h2
    exact h1.symm
  | cons n rest ih =>
    intro hs t hok
    unfold ipmiPass at hok
    cases hpar : parsePowerLine (readings (mgmt_hostname n)) label with
    | error e => rw [hpar] at hok; cases hok
    | ok w =>
      rw [hpar] at hok
      cases hrest : ipmiPass label readings rest with
      | error e => rw [hrest] at hok; cases hok
      | ok q =>
        rw [hrest] at hok
        injection hok with h
        injection h with h1 h2
        rw [← h1, List.map_cons, ih q.1 q.2 (by rw [hrest])]

/-- Helper: a manufacturer loop depends only on the readings of the
management hostnames of its own host list. -/
theorem ipmiPass_agree (label : String) (r1 r2 : String → List String) :
    ∀ names : List String,
      (∀ n ∈ names, r1 (mgmt_hostname n) = r2 (mgmt_hostname n)) →
      ipmiPass label r1 names = ipmiPass label r2 names := by
  intro names
  induction names with
  | nil => intro _; rfl
  | cons n rest ih =>
    intro hag
    unfold ipmiPass
    rw [hag n (List.mem_cons_self _ _),
      ih (fun m hm => hag m (List.mem_cons_of_mem _ hm))]

/-- C10: `ipmi_powerconsumption` queries only the management hostnames of
the `dell` and `supermicro` groups; its outcome does not depend on what the
`supermicro_broken` controllers would answer, bill's and nardole's
management hostnames are never queried, and they never appear in the
measured-host list (tasks.py 711-743, groups at 247-272). -/
theorem claim10_broken_group_not_measured (r1 r2 : String → List String)
    (hagree : ∀ n ∈ dellHosts ++ supermicroHosts,
      r1 (mgmt_hostname n) = r2 (mgmt_hostname n)) :
    ipmi_powerconsumption r1 = ipmi_powerconsumption r2 ∧
    (∀ q ∈ powerQueried r1, q ∈ (dellHosts ++ supermicroHosts).map mgmt_hostname) ∧
    mgmt_hostname "bill.dse.in.tum.de" ∉ powerQueried r1 ∧
    mgmt_hostname "nardole.dse.in.tum.de" ∉ powerQueried r1 ∧
    (∀ s ∈ measuredNames r1, s ∈ (dellHosts ++ supermicroHosts).map shortName) ∧
    shortName "bill.dse.in.tum.de" ∉ measuredNames r1 ∧
    shortName "nardole.dse.in.tum.de" ∉ measuredNames r1 := by
  have hagDell : ∀ n ∈ dellHosts, r1 (mgmt_hostname n) = r2 (mgmt_hostname n) :=
    fun n hn => hagree n (List.mem_append.mpr (Or.inl hn))
  have hagSm : ∀ n ∈ supermicroHosts, r1 (mgmt_hostname n) = r2 (mgmt_hostname n) :=
    fun n hn => hagree n (List.mem_append.mpr (Or.inr hn))
  have hqsub : ∀ q ∈ powerQueried r1, q ∈ (dellHosts ++ supermicroHosts).map mgmt_hostname := by
    intro q hq
    unfold powerQueried at hq
    rw [List.map_append]
    cases hd : ipmiPass sensorLabel r1 dellHosts with
    | error e =>
      rw [hd] at hq
      exact List.mem_append.mpr (Or.inl (ipmiPassQueried_subset _ _ _ q hq))
    | ok p =>
      rw [hd] at hq
      rcases List.mem_append.mp hq with h2 | h2
      · exact List.mem_append.mpr (Or.inl (ipmiPassQueried_subset _ _ _ q h2))
      · exact List.mem_append.mpr (Or.inr (ipmiPassQueried_subset _ _ _ q h2))
  have hmsub : ∀ s ∈ measuredNames r1, s ∈ (dellHosts ++ supermicroHosts).map shortName := by
    intro s hs
    unfold measuredNames ipmi_powerconsumption at hs
    cases hd : ipmiPass sensorLabel r1 dellHosts with
    | error e => rw [hd] at hs; cases hs
    | ok p1 =>
      rw [hd] at hs
      cases hsm : ipmiPass dcmiLabel r1 supermicroHosts with
      | error e => rw [hsm] at hs; cases hs
      | ok p2 =>
        rw [hsm] at hs
        have h1 : p1.1 = dellHosts.map shortName :=
          ipmiPass_ok_names _ _ _ _ p1.2 (by rw [hd])
        have h2 : p2.1 = supermicroHosts.map shortName :=
          ipmiPass_ok_names _ _ _ _ p2.2 (by rw [hsm])
        rw [List.map_append]
        have hs2 : s ∈ p1.1 ++ p2.1 := hs
        rcases List.mem_append.mp hs2 with h3 | h3
        · exact List.mem_append.mpr (Or.inl (h1 ▸ h3))
        · exact List.mem_append.mpr (Or.inr (h2 ▸ h3))
  refine ⟨?_, hqsub, ?_, ?_, hmsub, ?_, ?_⟩
  · unfold ipmi_powerconsumption
    rw [ipmiPass_agree sensorLabel r1 r2 dellHosts hagDell,
      ipmiPass_agree dcmiLabel r1 r2 supermicroHosts hagSm]
  · intro hmem
    exact absurd (hqsub _ hmem) (by decide)
  · intro hmem
    exact absurd (hqsub _ hmem) (by decide)
  · intro hmem
    exact absurd (hmsub _ hmem) (by decide)
  · intro hmem
    exact absurd (hmsub _ hmem) (by decide)

/-- C10 witness: the theorem applied to two concrete readings oracles that
differ only on bill's management controller. -/
theorem claim10_witness :
    ipmi_powerconsumption goodR = ipmi_powerconsumption billBrokenR ∧
    mgmt_hostname "bill.dse.in.tum.de" ∉ powerQueried goodR ∧
    mgmt_hostname "nardole.dse.in.tum.de" ∉ powerQueried goodR ∧
    shortName "bill.dse.in.tum.de" ∉ measuredNames goodR ∧
    shortName "nardole.dse.in.tum.de" ∉ measuredNames goodR := by
  have h := claim10_broken_group_not_measured goodR billBrokenR (by decide)
  exact ⟨h.1, h.2.2.1, h.2.2.2.1, h.2.2.2.2.2.1, h.2.2.2.2.2.2⟩
